import Mathlib

/-!
Shallow embedding of the S-parameter engine and the SWD protocol symbol type
from scopehal (SWDDecoder.h together with the SParameters implementation unit).
Machine floating-point values are modelled as rationals; the numeric constants
M_PI and FLT_EPSILON enter as explicit parameters named pi and eps.  Fallible
vector indexing is modelled with Option: a result of none marks an
out-of-bounds element access in the C++ source.
-/

/-- One frequency-response sample of SParameterVector: frequency in Hz, linear
amplitude, phase in radians (fields m_frequency, m_amplitude, m_phase). -/
structure SParameterPoint where
  m_frequency : ℚ
  m_amplitude : ℚ
  m_phase : ℚ
deriving DecidableEq

/-- Total accessor for point lists, used only to quote in-bounds elements in
theorem statements. -/
def nth (pts : List SParameterPoint) (i : Nat) : SParameterPoint :=
  (pts.get? i).getD ⟨0, 0, 0⟩

/-- Embedding of fabs on the modelled float values. -/
def fabsQ (x : ℚ) : ℚ :=
  if x < 0 then -x else x

/-- Embedding of SParameterVector::InterpolatePhase: interpolates a phase
angle, wrapping appropriately.  If the endpoints are more than pi apart, 2*pi
is added to the smaller endpoint before linear interpolation; if the result
exceeds 2*pi, 2*pi is subtracted. -/
def InterpolatePhase (pi phase_lo phase_hi frac : ℚ) : ℚ :=
  let p :=
    if fabsQ (phase_lo - phase_hi) > pi then
      if phase_lo < phase_hi then (phase_lo + 2 * pi, phase_hi)
      else (phase_lo, phase_hi + 2 * pi)
    else (phase_lo, phase_hi)
  let ret := p.1 + (p.2 - p.1) * frac
  if ret > 2 * pi then ret - 2 * pi else ret

/-- Tail of SParameterVector::InterpolatePoint once the bracketing indices are
known: the fractional position (with the dfreq > FLT_EPSILON guard), the
amplitude interpolation and the phase interpolation. -/
def interpAt (pi eps f : ℚ) (plo ph2 : SParameterPoint) : SParameterPoint :=
  let dfreq := ph2.m_frequency - plo.m_frequency
  let frac := if dfreq > eps then (f - plo.m_frequency) / dfreq else 0
  ⟨f, plo.m_amplitude + (ph2.m_amplitude - plo.m_amplitude) * frac,
    InterpolatePhase pi plo.m_phase ph2.m_phase frac⟩

/-- Embedding of the class SParameterVector: an ordered sequence of
frequency-response points (field m_points). -/
structure SParameterVector where
  m_points : List SParameterPoint
deriving DecidableEq

/-- Embedding of the while(true) binary-search loop of
SParameterVector::InterpolatePoint.  The C++ loop state is (last_lo, last_hi,
pos); each iteration first reads m_points[pos] (none on an out-of-bounds
read), stops when last_hi - last_lo <= 1, and otherwise halves the bracket.
The loop has no exit other than the break, so the embedding carries fuel;
bsearch_spec below shows fuel = m_points.length always suffices. -/
def bsearch (pts : List SParameterPoint) (f : ℚ) :
    Nat → Nat → Nat → Nat → Option (Nat × Nat)
  | 0, _, _, _ => none
  | fuel + 1, lo, hi, pos =>
    match pts.get? pos with
    | none => none
    | some pivot =>
      if hi - lo ≤ 1 then some (lo, hi)
      else if f < pivot.m_frequency then
        bsearch pts f fuel lo pos (lo + (pos - lo) / 2)
      else
        bsearch pts f fuel pos hi (hi - (hi - pos) / 2)

/-- Embedding of SParameterVector::InterpolatePoint.  Below the lowest sample
the amplitude is clipped and the phase interpolated toward 0; above the
highest sample amplitude and phase are 0; otherwise the bracketing pair is
found by binary search and the point is interpolated.  Every vector element
access of the C++ code is performed through get?, so the result is none
exactly when the C++ code reads out of bounds. -/
def SParameterVector.InterpolatePoint (pi eps : ℚ) (v : SParameterVector)
    (f : ℚ) : Option SParameterPoint :=
  match v.m_points.get? 0 with
  | none => none
  | some p0 =>
    if f < p0.m_frequency then
      some ⟨f, p0.m_amplitude, InterpolatePhase pi 0 p0.m_phase (f / p0.m_frequency)⟩
    else
      match v.m_points.get? (v.m_points.length - 1) with
      | none => none
      | some plast =>
        if plast.m_frequency < f then some ⟨f, 0, 0⟩
        else
          match bsearch v.m_points f v.m_points.length 0
              (v.m_points.length - 1) (v.m_points.length / 2) with
          | none => none
          | some (lo, hi) =>
            match v.m_points.get? lo, v.m_points.get? hi with
            | some plo, some ph2 => some (interpAt pi eps f plo ph2)
            | some _, none => none
            | none, _ => none

/-- Embedding of SParameterVector::InterpolateMagnitude: the amplitude of the
interpolated point. -/
def SParameterVector.InterpolateMagnitude (pi eps : ℚ) (v : SParameterVector)
    (f : ℚ) : Option ℚ :=
  (v.InterpolatePoint pi eps f).map SParameterPoint.m_amplitude

/-- Embedding of SParameterVector::InterpolateAngle: the phase of the
interpolated point. -/
def SParameterVector.InterpolateAngle (pi eps : ℚ) (v : SParameterVector)
    (f : ℚ) : Option ℚ :=
  (v.InterpolatePoint pi eps f).map SParameterPoint.m_phase

/-- Loop body of SParameterVector::operator*= applied to each own point in
order: the right-hand side is interpolated at the point frequency, the phase
sum is re-wrapped by the two successive conditionals of the source, and the
amplitudes are multiplied. -/
def mulAssignPoints (pi eps : ℚ) (rhs : SParameterVector) :
    List SParameterPoint → Option (List SParameterPoint)
  | [] => some []
  | us :: rest =>
    match rhs.InterpolatePoint pi eps us.m_frequency with
    | none => none
    | some point =>
      let phase1 := us.m_phase + point.m_phase
      let phase2 := if phase1 < -pi then phase1 + 2 * pi else phase1
      let phase3 := if phase2 > pi then phase2 - 2 * pi else phase2
      match mulAssignPoints pi eps rhs rest with
      | none => none
      | some tail =>
        some (⟨us.m_frequency, us.m_amplitude * point.m_amplitude, phase3⟩ :: tail)

/-- Embedding of SParameterVector::operator*= (cascading): the left operand's
own sample points are updated in place; none marks the out-of-bounds reads the
C++ code performs when the right-hand side cannot be interpolated. -/
def SParameterVector.mulAssign (pi eps : ℚ) (a rhs : SParameterVector) :
    Option SParameterVector :=
  (mulAssignPoints pi eps rhs a.m_points).map SParameterVector.mk

/-- Phase re-wrap rule as the specification words it for cascading: 2*pi is
added when the sum is below -pi and subtracted when it is above pi. -/
def wrapPhase (pi s : ℚ) : ℚ :=
  if s < -pi then s + 2 * pi else if s > pi then s - 2 * pi else s

/-- Embedding of SParameterVector::GetGroupDelay: returns 0 when
bin + 1 >= m_points.size(), and otherwise reads m_points[bin] and
m_points[bin+1+1] (none on an out-of-bounds read) and forms the phase
derivative with the Hz-to-rad/s conversion factor 2*pi. -/
def SParameterVector.GetGroupDelay (pi : ℚ) (v : SParameterVector)
    (bin : Nat) : Option ℚ :=
  if v.m_points.length ≤ bin + 1 then some 0
  else
    match v.m_points.get? bin, v.m_points.get? (bin + 1 + 1) with
    | some a, some b =>
      some ((a.m_phase - b.m_phase) / ((b.m_frequency - a.m_frequency) * (2 * pi)))
    | some _, none => none
    | none, _ => none

/-- Embedding of the enum SWDSymbol::stype. -/
inductive SWDSymbol.stype where
  | TYPE_START
  | TYPE_LINERESET
  | TYPE_AP_NDP
  | TYPE_R_NW
  | TYPE_ADDRESS
  | TYPE_PARITY_OK
  | TYPE_PARITY_BAD
  | TYPE_STOP
  | TYPE_PARK
  | TYPE_TURNAROUND
  | TYPE_ACK
  | TYPE_DATA
  | TYPE_SWDTOJTAG
  | TYPE_JTAGTOSWD
  | TYPE_SWDTODORMANT
  | TYPE_LEAVEDORMANT
  | TYPE_ERROR
deriving DecidableEq

/-- Embedding of the class SWDSymbol: a kind tag plus a 32-bit payload. -/
structure SWDSymbol where
  m_stype : SWDSymbol.stype
  m_data : Fin (2 ^ 32)
deriving DecidableEq

/-- Embedding of SWDSymbol::operator==: compares the kind tags and the
payloads. -/
def SWDSymbol.beq (a s : SWDSymbol) : Bool :=
  decide (a.m_stype = s.m_stype) && decide (a.m_data = s.m_data)

/-- Embedding of the std::map member SParameters::m_params: a finite key set
of (destination, source) port pairs together with the stored vector at each
key. -/
structure SPMap where
  keys : Finset (Nat × Nat)
  val : Nat × Nat → SParameterVector

/-- Insertion into the parameter map: m_params[key] = vec stores vec at key,
creating the key when absent. -/
def SPMap.insert (m : SPMap) (k : Nat × Nat) (vec : SParameterVector) : SPMap :=
  ⟨Insert.insert k m.keys, fun j => if j = k then vec else m.val j⟩

/-- The empty parameter map (default-constructed SParameters, or the state
after Clear). -/
def SPMap.emptyMap : SPMap :=
  ⟨∅, fun _ => ⟨[]⟩⟩

/-- Embedding of the class SParameters: the port-pair map and the port count
(fields m_params and m_nports). -/
structure SParameters where
  m_params : SPMap
  m_nports : Nat

/-- Embedding of SParameters::Clear: releases all held vectors; the port count
field is not touched. -/
def SParameters.Clear (sp : SParameters) : SParameters :=
  ⟨SPMap.emptyMap, sp.m_nports⟩

/-- Key order of the two nested loops of SParameters::Allocate: destination
ports 1..n in the outer loop, source ports 1..n in the inner loop. -/
def allocPairs (n : Nat) : List (Nat × Nat) :=
  (List.range' 1 n).flatMap fun d => (List.range' 1 n).map fun s => (d, s)

/-- Embedding of SParameters::Allocate: stores a fresh empty vector at every
ordered port pair in [1,n] x [1,n] of the existing map, then sets m_nports.
The map is not cleared first. -/
def SParameters.Allocate (sp : SParameters) (n : Nat) : SParameters :=
  ⟨(allocPairs n).foldl (fun m k => m.insert k ⟨[]⟩) sp.m_params, n⟩

/-- The full ordered port-pair grid [1,n] x [1,n] as a finite set. -/
def portGrid (n : Nat) : Finset (Nat × Nat) :=
  Finset.Icc 1 n ×ˢ Finset.Icc 1 n

/-- Modelled from the spec: the output data format enum (declared outside this
source unit).  Only mag-angle is implemented; every other requested format
stands behind FORMAT_OTHER. -/
inductive ParameterFormat where
  | FORMAT_MAG_ANGLE
  | FORMAT_OTHER
deriving DecidableEq

/-- Modelled from the spec: the frequency unit enum (declared outside this
source unit).  FREQ_OTHER stands for any unrecognized enum value, which falls
into the default branch of the switch in SParameters::SaveToFile. -/
inductive FreqUnit where
  | FREQ_HZ
  | FREQ_KHZ
  | FREQ_MHZ
  | FREQ_GHZ
  | FREQ_OTHER
deriving DecidableEq

/-- The switch over freqUnit in SParameters::SaveToFile: unit text and
frequency scale factor, with GHz as the default branch. -/
def freqInfo : FreqUnit → String × ℚ
  | FreqUnit.FREQ_HZ => ("Hz", 1)
  | FreqUnit.FREQ_KHZ => ("kHz", 1 / 1000)
  | FreqUnit.FREQ_MHZ => ("MHz", 1 / 1000000)
  | FreqUnit.FREQ_GHZ => ("GHz", 1 / 1000000000)
  | FreqUnit.FREQ_OTHER => ("GHz", 1 / 1000000000)

/-- Outcome of SParameters::SaveToFile: whether LogError ran (a hard reported
error), whether LogWarning ran, and the produced file, modelled as the header
line string plus the numeric fields of each data line. -/
structure SaveResult where
  hardError : Bool
  warned : Bool
  file : Option (String × List (List ℚ))
deriving DecidableEq

/-- One data line of the Touchstone output: the scaled frequency, then
amplitude and phase in degrees for S11, S21, S12, S22, exactly as the fprintf
of SParameters::SaveToFile orders them. -/
def row9 (scale rad2deg : ℚ) (p11 p21 p12 p22 : SParameterPoint) : List ℚ :=
  [p11.m_frequency * scale,
   p11.m_amplitude, p11.m_phase * rad2deg,
   p21.m_amplitude, p21.m_phase * rad2deg,
   p12.m_amplitude, p12.m_phase * rad2deg,
   p22.m_amplitude, p22.m_phase * rad2deg]

/-- The output loop of SParameters::SaveToFile: for i in [0, s11.size()) one
line indexing all four vectors at i; none marks an out-of-bounds read on a
shorter vector. -/
def buildRows (scale rad2deg : ℚ) (s11 s21 s12 s22 : List SParameterPoint) :
    Nat → Nat → Option (List (List ℚ))
  | _, 0 => some []
  | i, k + 1 =>
    match s11.get? i, s21.get? i, s12.get? i, s22.get? i with
    | some p11, some p21, some p12, some p22 =>
      match buildRows scale rad2deg s11 s21 s12 s22 (i + 1) k with
      | some rest => some (row9 scale rad2deg p11 p21 p12 p22 :: rest)
      | none => none
    | _, _, _, _ => none

/-- Embedding of SParameters::SaveToFile.  A port count other than 2 is a hard
error with no file; a format other than mag-angle only logs a warning; a file
that cannot be opened (canOpen = false) is a hard error with no file;
otherwise the header line and the data lines are produced.  The port-pair
accessor used by the source is external and modelled per the spec as reading
the stored vector of the pair. -/
def SParameters.SaveToFile (pi : ℚ) (sp : SParameters)
    (format : ParameterFormat) (freqUnit : FreqUnit) (canOpen : Bool) :
    SaveResult :=
  if sp.m_nports ≠ 2 then ⟨true, false, none⟩
  else
    let warned := if format = ParameterFormat.FORMAT_MAG_ANGLE then false else true
    if canOpen = false then ⟨true, warned, none⟩
    else
      let fi := freqInfo freqUnit
      let s11 := sp.m_params.val (1, 1)
      let s12 := sp.m_params.val (1, 2)
      let s21 := sp.m_params.val (2, 1)
      let s22 := sp.m_params.val (2, 2)
      match buildRows fi.2 (180 / pi) s11.m_points s21.m_points s12.m_points
          s22.m_points 0 s11.m_points.length with
      | some lines => ⟨false, warned, some ("# " ++ fi.1 ++ " S MA R 50.000", lines)⟩
      | none => ⟨false, warned, none⟩

/-! Helper lemmas about indexing and sortedness. -/

theorem nth_eq_get (pts : List SParameterPoint) (i : Nat) (h : i < pts.length) :
    nth pts i = pts.get ⟨i, h⟩ := by
  unfold nth
  rw [List.get?_eq_get h]
  rfl

theorem nth_get (pts : List SParameterPoint) (i : Nat) (h : i < pts.length) :
    pts.get? i = some (nth pts i) := by
  rw [nth_eq_get pts i h, List.get?_eq_get h]

theorem nth_lt_nth_of_pairwise (pts : List SParameterPoint)
    (hp : pts.Pairwise fun a b => a.m_frequency < b.m_frequency)
    (i j : Nat) (hij : i < j) (hj : j < pts.length) :
    (nth pts i).m_frequency < (nth pts j).m_frequency := by
  have hi : i < pts.length := lt_trans hij hj
  rw [nth_eq_get pts i hi, nth_eq_get pts j hj]
  exact List.pairwise_iff_get.mp hp ⟨i, hi⟩ ⟨j, hj⟩ hij

theorem nth_le_nth_of_pairwise (pts : List SParameterPoint)
    (hp : pts.Pairwise fun a b => a.m_frequency < b.m_frequency)
    (i j : Nat) (hij : i ≤ j) (hj : j < pts.length) :
    (nth pts i).m_frequency ≤ (nth pts j).m_frequency := by
  rcases lt_or_eq_of_le hij with h | h
  · exact le_of_lt (nth_lt_nth_of_pairwise pts hp i j h hj)
  · rw [h]

theorem pairwise_of_gaps (eps : ℚ) (pts : List SParameterPoint)
    (heps : 0 ≤ eps)
    (hg : pts.Chain' fun a b => eps < b.m_frequency - a.m_frequency) :
    pts.Pairwise fun a b => a.m_frequency < b.m_frequency := by
  have h1 : pts.Chain' fun a b : SParameterPoint => a.m_frequency < b.m_frequency := by
    refine List.Chain'.imp ?_ hg
    intro a b hab
    linarith
  have : IsTrans SParameterPoint fun a b => a.m_frequency < b.m_frequency :=
    ⟨fun _ _ _ h h2 => lt_trans h h2⟩
  exact List.chain'_iff_pairwise.mp h1

theorem gap_at_of_chain (eps : ℚ) (pts : List SParameterPoint)
    (hg : pts.Chain' fun a b => eps < b.m_frequency - a.m_frequency)
    (i : Nat) (h : i + 1 < pts.length) :
    eps < (nth pts (i + 1)).m_frequency - (nth pts i).m_frequency := by
  have hi : i < pts.length := lt_trans (Nat.lt_succ_self i) h
  have h2 : i < pts.length - 1 := by omega
  rw [nth_eq_get pts i hi, nth_eq_get pts (i + 1) h]
  exact List.chain'_iff_get.mp hg i h2

/-- C9: SWD protocol symbol equality is structural: a == b holds exactly when
the kind tags agree and the 32-bit payloads agree. -/
theorem C9_symbol_eq_structural (a s : SWDSymbol) :
    SWDSymbol.beq a s = true ↔ a.m_stype = s.m_stype ∧ a.m_data = s.m_data := by
  simp [SWDSymbol.beq]

/-- C5: GetGroupDelay is out of bounds at bin = size - 2.  On the two-point
vector below, bin 0 passes the bin + 1 >= size guard test (it does not return
0) yet the code reads m_points[bin + 1 + 1] = m_points[2], one past the end,
so the claimed bounds safety fails. -/
theorem C5_group_delay_oob :
    SParameterVector.GetGroupDelay (355 / 113)
        ⟨[⟨1, 1, 0⟩, ⟨2, 1, 0⟩]⟩ 0 = none ∧
      SParameterVector.GetGroupDelay (355 / 113)
        ⟨[⟨1, 1, 0⟩, ⟨2, 1, 0⟩]⟩ 0 ≠ some 0 := by
  constructor
  · rfl
  · decide

/-- C4 counterexample: on an empty vector the very first comparison of
InterpolatePoint reads m_points[0] out of bounds, so the call does not return
a defined point; the claim fails for the empty vector state. -/
theorem C4_counterexample :
    SParameterVector.InterpolatePoint (355 / 113) 0 ⟨[]⟩ 5 = none := rfl

/-- C2 counterexample: for the single-point vector (frequency 1, amplitude 1,
phase 7) and f = 1/2 below the lowest frequency, the phase is not the plain
linear value (f / lowest_frequency) * lowest_phase = 7/2: the wrap branch of
InterpolatePhase fires because |0 - 7| > pi, and the result is 81/226 (with
pi = 355/113). -/
theorem C2_counterexample :
    SParameterVector.InterpolatePoint (355 / 113) 0 ⟨[⟨1, 1, 7⟩]⟩ (1 / 2) ≠
      some ⟨1 / 2, 1, 7 * (1 / 2 / 1)⟩ := by
  norm_num [SParameterVector.InterpolatePoint, InterpolatePhase, fabsQ,
    SParameterPoint.mk.injEq]

/-- C3 counterexample: with a non-empty left operand and an empty right
operand, operator*= interpolates the empty right-hand vector, which reads
m_points[0] out of bounds, so no defined updated vector exists and the claim
fails for this pair. -/
theorem C3_counterexample :
    SParameterVector.mulAssign (355 / 113) 0 ⟨[⟨1, 1, 0⟩]⟩ ⟨[]⟩ = none := rfl

/-- C8 counterexample: Allocate does not discard prior content.  Allocating
for 2 ports and then re-allocating for 1 port leaves all 4 old entries in the
map, not the claimed 1 * 1 entries. -/
theorem C8_counterexample :
    (((⟨SPMap.emptyMap, 0⟩ : SParameters).Allocate 2).Allocate
        1).m_params.keys.card = 4 ∧
      ¬(((⟨SPMap.emptyMap, 0⟩ : SParameters).Allocate 2).Allocate
          1).m_params.keys.card = 1 * 1 := by
  decide

theorem bsearch_spec (pts : List SParameterPoint) (f : ℚ) :
    ∀ fuel lo hi pos, lo ≤ pos → pos ≤ hi → hi < pts.length → hi - lo < fuel →
    (hi - lo ≤ 1 ∨ (lo < pos ∧ pos < hi)) →
    (nth pts lo).m_frequency ≤ f → f ≤ (nth pts hi).m_frequency →
    ∃ lo2 hi2, bsearch pts f fuel lo hi pos = some (lo2, hi2) ∧
      lo2 ≤ hi2 ∧ hi2 < pts.length ∧ (lo < hi → hi2 = lo2 + 1) ∧
      (nth pts lo2).m_frequency ≤ f ∧ f ≤ (nth pts hi2).m_frequency := by
  intro fuel
  induction fuel with
  | zero =>
    intro lo hi pos _ _ _ hfuel _ _ _
    omega
  | succ n ih =>
    intro lo hi pos hlp hph hhl hfuel hinv hblo hbhi
    have hpos : pos < pts.length := lt_of_le_of_lt hph hhl
    simp only [bsearch, nth_get pts pos hpos]
    by_cases hw : hi - lo ≤ 1
    · rw [if_pos hw]
      exact ⟨lo, hi, rfl, le_trans hlp hph, hhl, by omega, hblo, hbhi⟩
    · rw [if_neg hw]
      by_cases hlt : f < (nth pts pos).m_frequency
      · rw [if_pos hlt]
        obtain ⟨lo2, hi2, heq, h1, h2, h3, h4, h5⟩ :=
          ih lo pos (lo + (pos - lo) / 2) (by omega) (by omega) hpos
            (by omega) (by omega) hblo (le_of_lt hlt)
        exact ⟨lo2, hi2, heq, h1, h2, fun _ => h3 (by omega), h4, h5⟩
      · rw [if_neg hlt]
        obtain ⟨lo2, hi2, heq, h1, h2, h3, h4, h5⟩ :=
          ih pos hi (hi - (hi - pos) / 2) (by omega) (by omega) hhl
            (by omega) (by omega) (le_of_not_lt hlt) hbhi
        exact ⟨lo2, hi2, heq, h1, h2, fun _ => h3 (by omega), h4, h5⟩

theorem interpolatePhase_frac_zero (pi a b : ℚ) :
    ∃ k : ℤ, InterpolatePhase pi a b 0 = a + k * (2 * pi) := by
  simp only [InterpolatePhase]
  split_ifs
  · exact ⟨0, by push_cast; ring⟩
  · exact ⟨1, by push_cast; ring⟩
  · exact ⟨-1, by push_cast; ring⟩
  · exact ⟨0, by push_cast; ring⟩
  · exact ⟨-1, by push_cast; ring⟩
  · exact ⟨0, by push_cast; ring⟩

theorem interpolatePhase_frac_one (pi a b : ℚ) :
    ∃ k : ℤ, InterpolatePhase pi a b 1 = b + k * (2 * pi) := by
  simp only [InterpolatePhase]
  split_ifs
  · exact ⟨-1, by push_cast; ring⟩
  · exact ⟨0, by push_cast; ring⟩
  · exact ⟨0, by push_cast; ring⟩
  · exact ⟨1, by push_cast; ring⟩
  · exact ⟨-1, by push_cast; ring⟩
  · exact ⟨0, by push_cast; ring⟩

theorem interpolatePoint_run (pi eps f : ℚ) (v : SParameterVector)
    (hne : v.m_points ≠ [])
    (hblo : (nth v.m_points 0).m_frequency ≤ f)
    (hbhi : f ≤ (nth v.m_points (v.m_points.length - 1)).m_frequency) :
    ∃ lo2 hi2, lo2 ≤ hi2 ∧ hi2 < v.m_points.length ∧
      (1 < v.m_points.length → hi2 = lo2 + 1) ∧
      (nth v.m_points lo2).m_frequency ≤ f ∧
      f ≤ (nth v.m_points hi2).m_frequency ∧
      v.InterpolatePoint pi eps f =
        some (interpAt pi eps f (nth v.m_points lo2) (nth v.m_points hi2)) := by
  have hlen : 0 < v.m_points.length := List.length_pos.mpr hne
  have h0 : v.m_points.get? 0 = some (nth v.m_points 0) := nth_get _ 0 hlen
  have hlast : v.m_points.get? (v.m_points.length - 1) =
      some (nth v.m_points (v.m_points.length - 1)) := nth_get _ _ (by omega)
  obtain ⟨lo2, hi2, heq, h1, h2, h3, h4, h5⟩ :=
    bsearch_spec v.m_points f v.m_points.length 0 (v.m_points.length - 1)
      (v.m_points.length / 2) (by omega) (by omega) (by omega) (by omega)
      (by omega) hblo hbhi
  refine ⟨lo2, hi2, h1, h2, fun hl => h3 (by omega), h4, h5, ?_⟩
  simp only [SParameterVector.InterpolatePoint, h0, hlast, heq,
    if_neg (not_lt.mpr hblo), if_neg (not_lt.mpr hbhi),
    nth_get v.m_points lo2 (lt_of_le_of_lt h1 h2), nth_get v.m_points hi2 h2]

theorem interpolatePoint_total (pi eps f : ℚ) (v : SParameterVector)
    (hne : v.m_points ≠ []) : ∃ p, v.InterpolatePoint pi eps f = some p := by
  have hlen : 0 < v.m_points.length := List.length_pos.mpr hne
  have h0 : v.m_points.get? 0 = some (nth v.m_points 0) := nth_get _ 0 hlen
  by_cases hlo : f < (nth v.m_points 0).m_frequency
  · refine ⟨⟨f, (nth v.m_points 0).m_amplitude,
      InterpolatePhase pi 0 (nth v.m_points 0).m_phase
        (f / (nth v.m_points 0).m_frequency)⟩, ?_⟩
    simp only [SParameterVector.InterpolatePoint, h0, if_pos hlo]
  · by_cases hhi : (nth v.m_points (v.m_points.length - 1)).m_frequency < f
    · refine ⟨⟨f, 0, 0⟩, ?_⟩
      simp only [SParameterVector.InterpolatePoint, h0, if_neg hlo,
        nth_get v.m_points (v.m_points.length - 1) (by omega), if_pos hhi]
    · obtain ⟨lo2, hi2, _, _, _, _, _, heq⟩ :=
        interpolatePoint_run pi eps f v hne (le_of_not_lt hlo) (le_of_not_lt hhi)
      exact ⟨_, heq⟩

theorem pairwise_of_sorted (pts : List SParameterPoint)
    (hs : pts.Chain' fun a b => a.m_frequency < b.m_frequency) :
    pts.Pairwise fun a b => a.m_frequency < b.m_frequency := by
  have : IsTrans SParameterPoint fun a b => a.m_frequency < b.m_frequency :=
    ⟨fun _ _ _ h h2 => lt_trans h h2⟩
  exact List.chain'_iff_pairwise.mp hs

theorem interpAt_self_left (pi eps : ℚ) (plo ph2 : SParameterPoint) :
    interpAt pi eps plo.m_frequency plo ph2 =
      ⟨plo.m_frequency, plo.m_amplitude,
        InterpolatePhase pi plo.m_phase ph2.m_phase 0⟩ := by
  simp only [interpAt, sub_self, zero_div]
  have ha : plo.m_amplitude +
      (ph2.m_amplitude - plo.m_amplitude) * 0 = plo.m_amplitude := by ring
  by_cases hguard : ph2.m_frequency - plo.m_frequency > eps
  · rw [if_pos hguard, ha]
  · rw [if_neg hguard, ha]

theorem interpAt_self_right (pi eps : ℚ) (plo ph2 : SParameterPoint)
    (heps : 0 ≤ eps) (hg : eps < ph2.m_frequency - plo.m_frequency) :
    interpAt pi eps ph2.m_frequency plo ph2 =
      ⟨ph2.m_frequency, ph2.m_amplitude,
        InterpolatePhase pi plo.m_phase ph2.m_phase 1⟩ := by
  simp only [interpAt]
  rw [if_pos hg]
  have hd : ph2.m_frequency - plo.m_frequency ≠ 0 := by linarith
  rw [div_self hd]
  have ha : plo.m_amplitude +
      (ph2.m_amplitude - plo.m_amplitude) * 1 = ph2.m_amplitude := by ring
  rw [ha]

/-- C4 (amended to non-empty vector states): for every non-empty vector and
every input frequency, InterpolatePoint performs no out-of-bounds access and
returns a defined point, and InterpolateMagnitude and InterpolateAngle return
its amplitude and phase; out-of-range frequencies are handled by the boundary
clipping rules rather than by an error. -/
theorem C4_interpolation_total (pi eps f : ℚ) (v : SParameterVector)
    (hne : v.m_points ≠ []) :
    ∃ p, v.InterpolatePoint pi eps f = some p ∧
      v.InterpolateMagnitude pi eps f = some p.m_amplitude ∧
      v.InterpolateAngle pi eps f = some p.m_phase := by
  obtain ⟨p, hp⟩ := interpolatePoint_total pi eps f v hne
  exact ⟨p, hp, by simp [SParameterVector.InterpolateMagnitude, hp],
    by simp [SParameterVector.InterpolateAngle, hp]⟩

/-- C4 witness: concrete application of C4_interpolation_total to a one-point
vector at an out-of-range frequency. -/
theorem C4_interpolation_total_witness :
    (⟨[⟨1, 1, 0⟩]⟩ : SParameterVector).m_points ≠ [] ∧
      ∃ p, SParameterVector.InterpolatePoint (355 / 113) 0 ⟨[⟨1, 1, 0⟩]⟩ 5 =
          some p ∧
        SParameterVector.InterpolateMagnitude (355 / 113) 0 ⟨[⟨1, 1, 0⟩]⟩ 5 =
          some p.m_amplitude ∧
        SParameterVector.InterpolateAngle (355 / 113) 0 ⟨[⟨1, 1, 0⟩]⟩ 5 =
          some p.m_phase :=
  ⟨by decide, C4_interpolation_total (355 / 113) 0 5 ⟨[⟨1, 1, 0⟩]⟩ (by decide)⟩

/-- C1: for every frequency within the sampled range of a strictly
frequency-ascending vector with at least two points (adjacent gaps above the
FLT_EPSILON model eps), the binary search of InterpolatePoint terminates with
a bracketing pair of adjacent sample points, the amplitude is linearly
interpolated between the two bracketing amplitudes, and the phase is
interpolated by the wrap-aware InterpolatePhase rule (2*pi added to the
smaller endpoint when the endpoints differ by more than pi, 2*pi subtracted
from a result above 2*pi). -/
theorem C1_in_range_interpolation (pi eps f : ℚ) (v : SParameterVector)
    (hgap : v.m_points.Chain' fun a b => eps < b.m_frequency - a.m_frequency)
    (hlen : 2 ≤ v.m_points.length)
    (hblo : (nth v.m_points 0).m_frequency ≤ f)
    (hbhi : f ≤ (nth v.m_points (v.m_points.length - 1)).m_frequency) :
    ∃ lo, lo + 1 < v.m_points.length ∧
      (nth v.m_points lo).m_frequency ≤ f ∧
      f ≤ (nth v.m_points (lo + 1)).m_frequency ∧
      v.InterpolatePoint pi eps f =
        some ⟨f,
          (nth v.m_points lo).m_amplitude +
            ((nth v.m_points (lo + 1)).m_amplitude -
                (nth v.m_points lo).m_amplitude) *
              ((f - (nth v.m_points lo).m_frequency) /
                ((nth v.m_points (lo + 1)).m_frequency -
                  (nth v.m_points lo).m_frequency)),
          InterpolatePhase pi (nth v.m_points lo).m_phase
            (nth v.m_points (lo + 1)).m_phase
            ((f - (nth v.m_points lo).m_frequency) /
              ((nth v.m_points (lo + 1)).m_frequency -
                (nth v.m_points lo).m_frequency))⟩ := by
  have hne : v.m_points ≠ [] := by
    intro h
    rw [h] at hlen
    simp at hlen
  obtain ⟨lo2, hi2, h1, h2, h3, h4, h5, heq⟩ :=
    interpolatePoint_run pi eps f v hne hblo hbhi
  have hadj : hi2 = lo2 + 1 := h3 (by omega)
  subst hadj
  refine ⟨lo2, h2, h4, h5, ?_⟩
  rw [heq]
  have hg := gap_at_of_chain eps v.m_points hgap lo2 h2
  simp only [interpAt]
  rw [if_pos hg]

/-- C1 witness: concrete application of C1_in_range_interpolation to the
two-point vector of the specification scenario, evaluated at 3/2. -/
theorem C1_in_range_interpolation_witness :
    (⟨[⟨1, 1 / 2, 0⟩, ⟨2, 4 / 5, 1⟩]⟩ : SParameterVector).m_points.Chain'
        (fun a b => (0 : ℚ) < b.m_frequency - a.m_frequency) ∧
      SParameterVector.InterpolatePoint (355 / 113) 0
        ⟨[⟨1, 1 / 2, 0⟩, ⟨2, 4 / 5, 1⟩]⟩ (3 / 2) =
        some ⟨3 / 2, 13 / 20, 1 / 2⟩ := by
  have hg : (⟨[⟨1, 1 / 2, 0⟩, ⟨2, 4 / 5, 1⟩]⟩ :
      SParameterVector).m_points.Chain'
      (fun a b => (0 : ℚ) < b.m_frequency - a.m_frequency) := by
    norm_num [List.chain'_cons]
  refine ⟨hg, ?_⟩
  obtain ⟨lo, hlt, _, _, heq⟩ :=
    C1_in_range_interpolation (355 / 113) 0 (3 / 2)
      ⟨[⟨1, 1 / 2, 0⟩, ⟨2, 4 / 5, 1⟩]⟩ hg (by norm_num)
      (by norm_num [nth]) (by norm_num [nth])
  have hlo : lo = 0 := by
    simp only [SParameterVector.mk] at hlt
    simp at hlt
    omega
  subst hlo
  rw [heq]
  norm_num [nth, InterpolatePhase, fabsQ]

/-- C10: for a strictly frequency-ascending vector (adjacent gaps above the
FLT_EPSILON model eps), InterpolatePoint applied exactly at the i-th sampled
frequency acts as the identity: it returns the i-th amplitude exactly and a
phase congruent to the i-th phase modulo 2*pi. -/
theorem C10_identity_at_samples (pi eps : ℚ) (v : SParameterVector)
    (heps : 0 ≤ eps)
    (hgap : v.m_points.Chain' fun a b => eps < b.m_frequency - a.m_frequency)
    (i : Nat) (hi : i < v.m_points.length) :
    ∃ p, v.InterpolatePoint pi eps (nth v.m_points i).m_frequency = some p ∧
      p.m_frequency = (nth v.m_points i).m_frequency ∧
      p.m_amplitude = (nth v.m_points i).m_amplitude ∧
      ∃ k : ℤ, p.m_phase = (nth v.m_points i).m_phase + k * (2 * pi) := by
  have hp : v.m_points.Pairwise fun a b => a.m_frequency < b.m_frequency :=
    pairwise_of_gaps eps v.m_points heps hgap
  have hne : v.m_points ≠ [] := by
    intro h
    rw [h] at hi
    simp at hi
  have hblo : (nth v.m_points 0).m_frequency ≤ (nth v.m_points i).m_frequency :=
    nth_le_nth_of_pairwise _ hp 0 i (Nat.zero_le i) hi
  have hbhi : (nth v.m_points i).m_frequency ≤
      (nth v.m_points (v.m_points.length - 1)).m_frequency :=
    nth_le_nth_of_pairwise _ hp i (v.m_points.length - 1) (by omega) (by omega)
  obtain ⟨lo2, hi2, h1, h2, h3, h4, h5, heq⟩ :=
    interpolatePoint_run pi eps (nth v.m_points i).m_frequency v hne hblo hbhi
  have hlo2i : lo2 ≤ i := by
    by_contra hcon
    push_neg at hcon
    have hlt := nth_lt_nth_of_pairwise v.m_points hp i lo2 hcon
      (lt_of_le_of_lt h1 h2)
    linarith
  have hihi2 : i ≤ hi2 := by
    by_contra hcon
    push_neg at hcon
    have hlt := nth_lt_nth_of_pairwise v.m_points hp hi2 i hcon hi
    linarith
  have hnarrow : hi2 ≤ lo2 + 1 := by
    rcases Nat.lt_or_ge 1 v.m_points.length with hl | hl
    · exact le_of_eq (h3 hl)
    · omega
  rcases Nat.eq_or_lt_of_le hlo2i with hcase | hcase
  · -- the sampled frequency sits on the left bracket endpoint
    rw [← hcase] at heq ⊢
    rw [interpAt_self_left pi eps (nth v.m_points lo2) (nth v.m_points hi2)]
      at heq
    obtain ⟨k, hk⟩ :=
      interpolatePhase_frac_zero pi (nth v.m_points lo2).m_phase
        (nth v.m_points hi2).m_phase
    exact ⟨_, heq, rfl, rfl, k, hk⟩
  · -- otherwise the sampled frequency is the right bracket endpoint
    have hieq : i = lo2 + 1 := by omega
    have hh2 : hi2 = lo2 + 1 := by omega
    rw [hieq, ← hh2] at heq ⊢
    have hg := gap_at_of_chain eps v.m_points hgap lo2 (by omega)
    rw [← hh2] at hg
    rw [interpAt_self_right pi eps (nth v.m_points lo2) (nth v.m_points hi2)
      heps hg] at heq
    obtain ⟨k, hk⟩ :=
      interpolatePhase_frac_one pi (nth v.m_points lo2).m_phase
        (nth v.m_points hi2).m_phase
    exact ⟨_, heq, rfl, rfl, k, hk⟩

/-- C10 witness: concrete application of C10_identity_at_samples to a
two-point vector at sample index 1. -/
theorem C10_identity_at_samples_witness :
    (⟨[⟨1, 1 / 2, 0⟩, ⟨2, 4 / 5, 1⟩]⟩ : SParameterVector).m_points.Chain'
        (fun a b => (0 : ℚ) < b.m_frequency - a.m_frequency) ∧
      ∃ p, SParameterVector.InterpolatePoint (355 / 113) 0
          ⟨[⟨1, 1 / 2, 0⟩, ⟨2, 4 / 5, 1⟩]⟩
          (nth [⟨1, 1 / 2, 0⟩, ⟨2, 4 / 5, 1⟩] 1).m_frequency = some p ∧
        p.m_frequency = (nth [⟨1, 1 / 2, 0⟩, ⟨2, 4 / 5, 1⟩] 1).m_frequency ∧
        p.m_amplitude = (nth [⟨1, 1 / 2, 0⟩, ⟨2, 4 / 5, 1⟩] 1).m_amplitude ∧
        ∃ k : ℤ, p.m_phase =
          (nth [⟨1, 1 / 2, 0⟩, ⟨2, 4 / 5, 1⟩] 1).m_phase +
            k * (2 * (355 / 113)) := by
  have hg : (⟨[⟨1, 1 / 2, 0⟩, ⟨2, 4 / 5, 1⟩]⟩ :
      SParameterVector).m_points.Chain'
      (fun a b => (0 : ℚ) < b.m_frequency - a.m_frequency) := by
    norm_num [List.chain'_cons]
  exact ⟨hg, C10_identity_at_samples (355 / 113) 0
    ⟨[⟨1, 1 / 2, 0⟩, ⟨2, 4 / 5, 1⟩]⟩ (le_refl 0) hg 1 (by norm_num)⟩

theorem fabsQ_le_iff (x c : ℚ) : fabsQ x ≤ c ↔ -c ≤ x ∧ x ≤ c := by
  unfold fabsQ
  split_ifs with h
  · constructor
    · intro hh
      exact ⟨by linarith, by linarith⟩
    · intro hh
      linarith [hh.1]
  · constructor
    · intro hh
      exact ⟨by linarith, by linarith⟩
    · intro hh
      exact hh.2

theorem interpolatePhase_from_zero (pi b frac : ℚ) (hpi : 0 < pi)
    (hb : fabsQ b ≤ pi) (h0 : 0 ≤ frac) (h1 : frac < 1) :
    InterpolatePhase pi 0 b frac = b * frac := by
  obtain ⟨hb1, hb2⟩ := (fabsQ_le_iff b pi).mp hb
  have habs : ¬ fabsQ (0 - b) > pi := by
    push_neg
    exact (fabsQ_le_iff _ _).mpr ⟨by linarith, by linarith⟩
  simp only [InterpolatePhase]
  rw [if_neg habs]
  have hret : ¬ ((0 : ℚ) + (b - 0) * frac > 2 * pi) := by
    push_neg
    nlinarith [mul_nonneg (by linarith : (0 : ℚ) ≤ pi - b) h0,
      mul_pos hpi (by linarith : (0 : ℚ) < 1 - frac)]
  rw [if_neg (show ¬ (((0 : ℚ), b).1 + (((0 : ℚ), b).2 - ((0 : ℚ), b).1) *
    frac > 2 * pi) from hret)]
  show (0 : ℚ) + (b - 0) * frac = b * frac
  ring

/-- C2 (amended): boundary clipping of InterpolatePoint for a non-empty
strictly frequency-ascending vector.  Above the highest sampled frequency the
result is exactly amplitude 0 and phase 0.  Below the lowest sampled
frequency the amplitude is the lowest point's amplitude unchanged and, for a
nonnegative requested frequency and a lowest phase within [-pi, pi], the
phase is the plain linear value lowest_phase * (f / lowest_frequency); outside
those bounds the wrap branch of InterpolatePhase fires and the plain linear
reading fails, as C2_counterexample shows. -/
theorem C2_boundary_clipping (pi eps : ℚ) (v : SParameterVector)
    (hpi : 0 < pi) (hne : v.m_points ≠ [])
    (hsorted : v.m_points.Chain' fun a b => a.m_frequency < b.m_frequency) :
    (∀ f, (nth v.m_points (v.m_points.length - 1)).m_frequency < f →
      v.InterpolatePoint pi eps f = some ⟨f, 0, 0⟩) ∧
    (∀ f, 0 ≤ f → f < (nth v.m_points 0).m_frequency →
      fabsQ (nth v.m_points 0).m_phase ≤ pi →
      v.InterpolatePoint pi eps f =
        some ⟨f, (nth v.m_points 0).m_amplitude,
          (nth v.m_points 0).m_phase * (f / (nth v.m_points 0).m_frequency)⟩) := by
  have hlen : 0 < v.m_points.length := List.length_pos.mpr hne
  have h0 : v.m_points.get? 0 = some (nth v.m_points 0) := nth_get _ 0 hlen
  have hlast : v.m_points.get? (v.m_points.length - 1) =
      some (nth v.m_points (v.m_points.length - 1)) := nth_get _ _ (by omega)
  have hp := pairwise_of_sorted v.m_points hsorted
  have h0last : (nth v.m_points 0).m_frequency ≤
      (nth v.m_points (v.m_points.length - 1)).m_frequency :=
    nth_le_nth_of_pairwise _ hp 0 _ (Nat.zero_le _) (by omega)
  constructor
  · intro f hf
    have hnlo : ¬ f < (nth v.m_points 0).m_frequency := by
      push_neg
      linarith
    simp only [SParameterVector.InterpolatePoint, h0, if_neg hnlo, hlast,
      if_pos hf]
  · intro f hf0 hflt hphase
    have hfreqpos : 0 < (nth v.m_points 0).m_frequency :=
      lt_of_le_of_lt hf0 hflt
    simp only [SParameterVector.InterpolatePoint, h0, if_pos hflt]
    rw [interpolatePhase_from_zero pi (nth v.m_points 0).m_phase
      (f / (nth v.m_points 0).m_frequency) hpi hphase
      (div_nonneg hf0 (le_of_lt hfreqpos)) ((div_lt_one hfreqpos).mpr hflt)]

/-- C2 witness: concrete applications of C2_boundary_clipping above and below
the sampled range of a one-point vector. -/
theorem C2_boundary_clipping_witness :
    SParameterVector.InterpolatePoint (355 / 113) 0 ⟨[⟨2, 3, 1⟩]⟩ 5 =
        some ⟨5, 0, 0⟩ ∧
      SParameterVector.InterpolatePoint (355 / 113) 0 ⟨[⟨2, 3, 1⟩]⟩ 1 =
        some ⟨1, 3, 1 * (1 / 2)⟩ := by
  have h := C2_boundary_clipping (355 / 113) 0 ⟨[⟨2, 3, 1⟩]⟩ (by norm_num)
    (by decide) (by simp)
  constructor
  · have h2 := h.1 5 (by norm_num [nth])
    simpa [nth] using h2
  · have h2 := h.2 1 (by norm_num) (by norm_num [nth])
      (by norm_num [nth, fabsQ])
    simpa [nth] using h2

theorem nth_cons_succ (p : SParameterPoint) (l : List SParameterPoint)
    (n : Nat) : nth (p :: l) (n + 1) = nth l n := rfl

theorem seqWrap_eq_wrapPhase (pi s : ℚ) :
    (if (if s < -pi then s + 2 * pi else s) > pi then
        (if s < -pi then s + 2 * pi else s) - 2 * pi
      else (if s < -pi then s + 2 * pi else s)) = wrapPhase pi s := by
  unfold wrapPhase
  split_ifs <;> linarith

theorem mulAssignPoints_spec (pi eps : ℚ) (rhs : SParameterVector)
    (hrne : rhs.m_points ≠ []) (l : List SParameterPoint) :
    ∃ r, mulAssignPoints pi eps rhs l = some r ∧ r.length = l.length ∧
      ∀ i, i < l.length →
        (nth r i).m_frequency = (nth l i).m_frequency ∧
        ∃ q, rhs.InterpolatePoint pi eps (nth l i).m_frequency = some q ∧
          (nth r i).m_amplitude = (nth l i).m_amplitude * q.m_amplitude ∧
          (nth r i).m_phase = wrapPhase pi ((nth l i).m_phase + q.m_phase) := by
  induction l with
  | nil =>
    refine ⟨[], rfl, rfl, ?_⟩
    intro i h
    simp at h
  | cons us rest ih =>
    obtain ⟨q, hq⟩ := interpolatePoint_total pi eps us.m_frequency rhs hrne
    obtain ⟨r, hr, hlen, hprop⟩ := ih
    refine ⟨⟨us.m_frequency, us.m_amplitude * q.m_amplitude,
        wrapPhase pi (us.m_phase + q.m_phase)⟩ :: r, ?_, by simp [hlen], ?_⟩
    · simp only [mulAssignPoints, hq, hr]
      rw [seqWrap_eq_wrapPhase]
    · intro i hi2
      cases i with
      | zero => exact ⟨rfl, q, hq, rfl, rfl⟩
      | succ n =>
        have hn : n < rest.length := by
          simp at hi2
          omega
        simp only [nth_cons_succ]
        exact hprop n hn

/-- C3 (amended to a non-empty right operand, which the out-of-bounds
interpolation of C3_counterexample forces): after a *= rhs, the left
operand's frequency grid is preserved point for point; each amplitude is the
old amplitude times the amplitude of rhs interpolated at that frequency, and
each phase is the old phase plus the interpolated phase, re-wrapped by adding
2*pi when the sum is below -pi and subtracting 2*pi when it is above pi. -/
theorem C3_cascade_pointwise (pi eps : ℚ) (a rhs : SParameterVector)
    (hrne : rhs.m_points ≠ []) :
    ∃ c, SParameterVector.mulAssign pi eps a rhs = some c ∧
      c.m_points.length = a.m_points.length ∧
      ∀ i, i < a.m_points.length →
        (nth c.m_points i).m_frequency = (nth a.m_points i).m_frequency ∧
        ∃ q, rhs.InterpolatePoint pi eps (nth a.m_points i).m_frequency =
            some q ∧
          (nth c.m_points i).m_amplitude =
            (nth a.m_points i).m_amplitude * q.m_amplitude ∧
          (nth c.m_points i).m_phase =
            wrapPhase pi ((nth a.m_points i).m_phase + q.m_phase) := by
  obtain ⟨r, hr, hlen, hprop⟩ := mulAssignPoints_spec pi eps rhs hrne a.m_points
  exact ⟨⟨r⟩, by simp [SParameterVector.mulAssign, hr], hlen, hprop⟩

/-- C3 witness: concrete application of C3_cascade_pointwise to one-point
vectors, with the resulting point evaluated. -/
theorem C3_cascade_pointwise_witness :
    (⟨[⟨1, 3, 1⟩]⟩ : SParameterVector).m_points ≠ [] ∧
      ∃ c, SParameterVector.mulAssign (355 / 113) 0 ⟨[⟨1, 2, 1⟩]⟩
          ⟨[⟨1, 3, 1⟩]⟩ = some c ∧
        c.m_points.length = 1 := by
  refine ⟨by decide, ?_⟩
  obtain ⟨c, hc, hlen, _⟩ :=
    C3_cascade_pointwise (355 / 113) 0 ⟨[⟨1, 2, 1⟩]⟩ ⟨[⟨1, 3, 1⟩]⟩ (by decide)
  exact ⟨c, hc, by simpa using hlen⟩

theorem mem_allocPairs (n : Nat) (k : Nat × Nat) :
    k ∈ allocPairs n ↔ k ∈ portGrid n := by
  obtain ⟨d, s⟩ := k
  simp only [allocPairs, portGrid, List.mem_flatMap, List.mem_map,
    List.mem_range'_1, Finset.mem_product, Finset.mem_Icc, Prod.mk.injEq]
  constructor
  · rintro ⟨a, ha, b, hb, hab1, hab2⟩
    subst hab1
    subst hab2
    exact ⟨⟨ha.1, by omega⟩, hb.1, by omega⟩
  · rintro ⟨⟨h1, h2⟩, h3, h4⟩
    exact ⟨d, ⟨h1, by omega⟩, s, ⟨h3, by omega⟩, rfl, rfl⟩

theorem foldl_insert_keys (l : List (Nat × Nat)) (m : SPMap) :
    (l.foldl (fun m2 k => m2.insert k ⟨[]⟩) m).keys = m.keys ∪ l.toFinset := by
  induction l generalizing m with
  | nil => simp
  | cons a t ih =>
    rw [List.foldl_cons, ih (m.insert a ⟨[]⟩), List.toFinset_cons,
      Finset.union_insert]
    simp only [SPMap.insert]
    rw [Finset.insert_union]

theorem foldl_insert_val (l : List (Nat × Nat)) (m : SPMap) (k : Nat × Nat) :
    (l.foldl (fun m2 k2 => m2.insert k2 ⟨[]⟩) m).val k =
      if k ∈ l then ⟨[]⟩ else m.val k := by
  induction l generalizing m with
  | nil => simp
  | cons a t ih =>
    rw [List.foldl_cons, ih (m.insert a ⟨[]⟩)]
    simp only [SPMap.insert, List.mem_cons]
    by_cases h : k ∈ t
    · simp [h]
    · by_cases h2 : k = a
      · simp [h, h2]
      · simp [h, h2]

/-- C8 (amended): after Allocate(n) the map holds a fresh empty vector at
every ordered port pair of [1,n] x [1,n] and the port-count field equals n;
prior entries at keys outside the new grid are retained rather than
discarded, so the map has exactly n * n entries exactly when the prior key
set is contained in the grid (a fresh or cleared model, or a prior
allocation for at most n ports), as C8_counterexample shows. -/
theorem C8_allocate_grid (sp : SParameters) (n : Nat)
    (hsub : sp.m_params.keys ⊆ portGrid n) :
    (sp.Allocate n).m_params.keys = portGrid n ∧
      (sp.Allocate n).m_params.keys.card = n * n ∧
      (∀ k, k ∈ portGrid n → (sp.Allocate n).m_params.val k = ⟨[]⟩) ∧
      (sp.Allocate n).m_nports = n := by
  have hkeys : (sp.Allocate n).m_params.keys =
      sp.m_params.keys ∪ (allocPairs n).toFinset :=
    foldl_insert_keys (allocPairs n) sp.m_params
  have htf : (allocPairs n).toFinset = portGrid n := by
    ext k
    simpa [List.mem_toFinset] using mem_allocPairs n k
  have hkeys2 : (sp.Allocate n).m_params.keys = portGrid n := by
    rw [hkeys, htf]
    exact Finset.union_eq_right.mpr hsub
  refine ⟨hkeys2, ?_, ?_, rfl⟩
  · rw [hkeys2]
    simp [portGrid, Finset.card_product, Nat.card_Icc]
  · intro k hk
    have hv := foldl_insert_val (allocPairs n) sp.m_params k
    rw [if_pos ((mem_allocPairs n k).mpr hk)] at hv
    exact hv

/-- C8 witness: concrete application of C8_allocate_grid to a fresh model
allocated for 2 ports. -/
theorem C8_allocate_grid_witness :
    (⟨SPMap.emptyMap, 0⟩ : SParameters).m_params.keys ⊆ portGrid 2 ∧
      ((⟨SPMap.emptyMap, 0⟩ : SParameters).Allocate 2).m_params.keys.card =
        2 * 2 ∧
      ((⟨SPMap.emptyMap, 0⟩ : SParameters).Allocate 2).m_nports = 2 := by
  have h := C8_allocate_grid ⟨SPMap.emptyMap, 0⟩ 2 (by decide)
  exact ⟨by decide, h.2.1, h.2.2.2⟩

theorem saveToFile_open_eval (pi : ℚ) (sp : SParameters)
    (format : ParameterFormat) (u : FreqUnit) (h : sp.m_nports = 2) :
    sp.SaveToFile pi format u true =
      ⟨false,
        if format = ParameterFormat.FORMAT_MAG_ANGLE then false else true,
        match buildRows (freqInfo u).2 (180 / pi)
            (sp.m_params.val (1, 1)).m_points
            (sp.m_params.val (2, 1)).m_points
            (sp.m_params.val (1, 2)).m_points
            (sp.m_params.val (2, 2)).m_points 0
            (sp.m_params.val (1, 1)).m_points.length with
          | some lines =>
            some ("# " ++ (freqInfo u).1 ++ " S MA R 50.000", lines)
          | none => none⟩ := by
  simp only [SParameters.SaveToFile, h]
  rw [if_neg (by simp : ¬ ((2 : Nat) ≠ 2)), if_neg (by simp : ¬ (true = false))]
  cases hb : buildRows (freqInfo u).2 (180 / pi)
      (sp.m_params.val (1, 1)).m_points (sp.m_params.val (2, 1)).m_points
      (sp.m_params.val (1, 2)).m_points (sp.m_params.val (2, 2)).m_points 0
      (sp.m_params.val (1, 1)).m_points.length with
  | none => rfl
  | some lines => rfl

/-- C6: SaveToFile error handling.  A port count other than 2 is a hard
reported error producing no file; a file that cannot be opened is a hard
reported error with no partial file; a format other than mag-angle yields
only a warning and exactly the file a mag-angle export of the same model
produces. -/
theorem C6_save_error_handling (pi : ℚ) (sp : SParameters)
    (format : ParameterFormat) (u : FreqUnit) (c : Bool) :
    (sp.m_nports ≠ 2 →
      (sp.SaveToFile pi format u c).hardError = true ∧
        (sp.SaveToFile pi format u c).file = none) ∧
    (sp.m_nports = 2 →
      (sp.SaveToFile pi format u false).hardError = true ∧
        (sp.SaveToFile pi format u false).file = none) ∧
    (sp.m_nports = 2 → format ≠ ParameterFormat.FORMAT_MAG_ANGLE →
      (sp.SaveToFile pi format u true).warned = true ∧
        (sp.SaveToFile pi format u true).hardError = false ∧
        (sp.SaveToFile pi format u true).file =
          (sp.SaveToFile pi ParameterFormat.FORMAT_MAG_ANGLE u true).file ∧
        (sp.SaveToFile pi ParameterFormat.FORMAT_MAG_ANGLE u true).warned =
          false) := by
  refine ⟨?_, ?_, ?_⟩
  · intro h
    constructor <;> simp [SParameters.SaveToFile, h]
  · intro h
    constructor <;> simp [SParameters.SaveToFile, h]
  · intro h hf
    rw [saveToFile_open_eval pi sp format u h,
      saveToFile_open_eval pi sp ParameterFormat.FORMAT_MAG_ANGLE u h]
    refine ⟨by simp [hf], rfl, rfl, by simp⟩

/-- C6 witness: concrete applications of C6_save_error_handling: a 3-port
model (hard error, no file), an unopenable file on a 2-port model (hard
error, no file), and a non-mag-angle format on a 2-port model (warning only,
same file as mag-angle). -/
theorem C6_save_error_handling_witness :
    ((⟨SPMap.emptyMap, 3⟩ : SParameters).SaveToFile (355 / 113)
        ParameterFormat.FORMAT_MAG_ANGLE FreqUnit.FREQ_GHZ true).hardError =
      true ∧
    ((⟨SPMap.emptyMap, 3⟩ : SParameters).SaveToFile (355 / 113)
        ParameterFormat.FORMAT_MAG_ANGLE FreqUnit.FREQ_GHZ true).file =
      none ∧
    (((⟨SPMap.emptyMap, 0⟩ : SParameters).Allocate 2).SaveToFile (355 / 113)
        ParameterFormat.FORMAT_MAG_ANGLE FreqUnit.FREQ_GHZ false).hardError =
      true ∧
    (((⟨SPMap.emptyMap, 0⟩ : SParameters).Allocate 2).SaveToFile (355 / 113)
        ParameterFormat.FORMAT_OTHER FreqUnit.FREQ_KHZ true).warned = true ∧
    (((⟨SPMap.emptyMap, 0⟩ : SParameters).Allocate 2).SaveToFile (355 / 113)
        ParameterFormat.FORMAT_OTHER FreqUnit.FREQ_KHZ true).file =
      (((⟨SPMap.emptyMap, 0⟩ : SParameters).Allocate 2).SaveToFile (355 / 113)
        ParameterFormat.FORMAT_MAG_ANGLE FreqUnit.FREQ_KHZ true).file := by
  have h1 := (C6_save_error_handling (355 / 113) ⟨SPMap.emptyMap, 3⟩
    ParameterFormat.FORMAT_MAG_ANGLE FreqUnit.FREQ_GHZ true).1 (by decide)
  have h2 := (C6_save_error_handling (355 / 113)
    ((⟨SPMap.emptyMap, 0⟩ : SParameters).Allocate 2)
    ParameterFormat.FORMAT_MAG_ANGLE FreqUnit.FREQ_GHZ true).2.1 rfl
  have h3 := (C6_save_error_handling (355 / 113)
    ((⟨SPMap.emptyMap, 0⟩ : SParameters).Allocate 2)
    ParameterFormat.FORMAT_OTHER FreqUnit.FREQ_KHZ true).2.2 rfl (by decide)
  exact ⟨h1.1, h1.2, h2.1, h3.1, h3.2.2.1⟩

theorem buildRows_spec (scale rad2deg : ℚ)
    (s11 s21 s12 s22 : List SParameterPoint)
    (h21 : s21.length = s11.length) (h12 : s12.length = s11.length)
    (h22 : s22.length = s11.length) :
    ∀ k i, i + k ≤ s11.length →
      ∃ lines, buildRows scale rad2deg s11 s21 s12 s22 i k = some lines ∧
        lines.length = k ∧
        ∀ j, j < k → lines.get? j = some (row9 scale rad2deg
          (nth s11 (i + j)) (nth s21 (i + j)) (nth s12 (i + j))
          (nth s22 (i + j))) := by
  intro k
  induction k with
  | zero =>
    intro i hik
    refine ⟨[], rfl, rfl, ?_⟩
    intro j hj
    omega
  | succ m ih =>
    intro i hik
    obtain ⟨rest, hrest, hlen, hprop⟩ := ih (i + 1) (by omega)
    have hi11 : s11.get? i = some (nth s11 i) := nth_get _ _ (by omega)
    have hi21 : s21.get? i = some (nth s21 i) := nth_get _ _ (by omega)
    have hi12 : s12.get? i = some (nth s12 i) := nth_get _ _ (by omega)
    have hi22 : s22.get? i = some (nth s22 i) := nth_get _ _ (by omega)
    refine ⟨row9 scale rad2deg (nth s11 i) (nth s21 i) (nth s12 i)
        (nth s22 i) :: rest, ?_, by simp [hlen], ?_⟩
    · simp only [buildRows, hi11, hi21, hi12, hi22, hrest]
    · intro j hj
      cases j with
      | zero => simp
      | succ jm =>
        have h2 := hprop jm (by omega)
        have he : i + 1 + jm = i + (jm + 1) := by omega
        rw [he] at h2
        simpa using h2

/-- C7: for a 2-port model whose four vectors have equal length and an
openable output file, SaveToFile produces one header line of the form
"# <unit> S MA R 50.000" followed by one line per frequency point with
exactly 9 fields: the scaled frequency, then amplitude and phase in degrees
for S11, S21, S12, S22 in that fixed order; the unit text / scale pairs are
Hz/1, kHz/1e-3, MHz/1e-6, GHz/1e-9, with GHz for an unrecognized unit. -/
theorem C7_save_format (pi : ℚ) (sp : SParameters) (format : ParameterFormat)
    (u : FreqUnit) (h2 : sp.m_nports = 2)
    (h21 : (sp.m_params.val (2, 1)).m_points.length =
      (sp.m_params.val (1, 1)).m_points.length)
    (h12 : (sp.m_params.val (1, 2)).m_points.length =
      (sp.m_params.val (1, 1)).m_points.length)
    (h22 : (sp.m_params.val (2, 2)).m_points.length =
      (sp.m_params.val (1, 1)).m_points.length) :
    ∃ lines,
      (sp.SaveToFile pi format u true).file =
        some ("# " ++ (freqInfo u).1 ++ " S MA R 50.000", lines) ∧
      lines.length = (sp.m_params.val (1, 1)).m_points.length ∧
      (∀ r, r ∈ lines → r.length = 9) ∧
      (∀ i, i < (sp.m_params.val (1, 1)).m_points.length →
        lines.get? i = some
          [(nth (sp.m_params.val (1, 1)).m_points i).m_frequency *
              (freqInfo u).2,
            (nth (sp.m_params.val (1, 1)).m_points i).m_amplitude,
            (nth (sp.m_params.val (1, 1)).m_points i).m_phase * (180 / pi),
            (nth (sp.m_params.val (2, 1)).m_points i).m_amplitude,
            (nth (sp.m_params.val (2, 1)).m_points i).m_phase * (180 / pi),
            (nth (sp.m_params.val (1, 2)).m_points i).m_amplitude,
            (nth (sp.m_params.val (1, 2)).m_points i).m_phase * (180 / pi),
            (nth (sp.m_params.val (2, 2)).m_points i).m_amplitude,
            (nth (sp.m_params.val (2, 2)).m_points i).m_phase * (180 / pi)]) ∧
      freqInfo FreqUnit.FREQ_HZ = ("Hz", 1) ∧
      freqInfo FreqUnit.FREQ_KHZ = ("kHz", 1 / 1000) ∧
      freqInfo FreqUnit.FREQ_MHZ = ("MHz", 1 / 1000000) ∧
      freqInfo FreqUnit.FREQ_GHZ = ("GHz", 1 / 1000000000) ∧
      freqInfo FreqUnit.FREQ_OTHER = ("GHz", 1 / 1000000000) := by
  obtain ⟨lines, hb, hlen, hprop⟩ :=
    buildRows_spec (freqInfo u).2 (180 / pi) (sp.m_params.val (1, 1)).m_points
      (sp.m_params.val (2, 1)).m_points (sp.m_params.val (1, 2)).m_points
      (sp.m_params.val (2, 2)).m_points h21 h12 h22
      (sp.m_params.val (1, 1)).m_points.length 0 (by omega)
  refine ⟨lines, ?_, hlen, ?_, ?_, rfl, rfl, rfl, rfl, rfl⟩
  · rw [saveToFile_open_eval pi sp format u h2, hb]
  · intro r hr
    obtain ⟨j, hjr⟩ := List.mem_iff_get?.mp hr
    have hjlt : j < lines.length := by
      by_contra hc
      push_neg at hc
      rw [List.get?_eq_none.mpr hc] at hjr
      exact Option.noConfusion hjr
    rw [hlen] at hjlt
    have hval := hprop j hjlt
    rw [hval] at hjr
    have hr9 : r = row9 (freqInfo u).2 (180 / pi)
        (nth (sp.m_params.val (1, 1)).m_points (0 + j))
        (nth (sp.m_params.val (2, 1)).m_points (0 + j))
        (nth (sp.m_params.val (1, 2)).m_points (0 + j))
        (nth (sp.m_params.val (2, 2)).m_points (0 + j)) :=
      (Option.some_inj.mp hjr).symm
    rw [hr9]
    rfl
  · intro i hi
    have hval := hprop i hi
    simpa [row9] using hval

/-- C7 witness: concrete application of C7_save_format to a freshly
allocated 2-port model (empty vectors) with Hz units. -/
theorem C7_save_format_witness :
    ((⟨SPMap.emptyMap, 0⟩ : SParameters).Allocate 2).m_nports = 2 ∧
      ∃ lines,
        (((⟨SPMap.emptyMap, 0⟩ : SParameters).Allocate 2).SaveToFile
            (355 / 113) ParameterFormat.FORMAT_MAG_ANGLE FreqUnit.FREQ_HZ
            true).file =
          some ("# " ++ (freqInfo FreqUnit.FREQ_HZ).1 ++ " S MA R 50.000",
            lines) ∧
        lines.length = 0 := by
  refine ⟨rfl, ?_⟩
  obtain ⟨lines, hfile, hlen, _⟩ :=
    C7_save_format (355 / 113) ((⟨SPMap.emptyMap, 0⟩ : SParameters).Allocate 2)
      ParameterFormat.FORMAT_MAG_ANGLE FreqUnit.FREQ_HZ rfl rfl rfl rfl
  exact ⟨lines, hfile, by rw [hlen]; rfl⟩
